import Mathlib

/-!
Verification development for the ClickHouse SQL parser's AST layer
(`parser/ast.go`): position bookkeeping (`Pos()`/`End()`), the
`String(level)` pretty-printer, and the `Accept` visitor traversal.

The Go structs become Lean structures (for the non-recursive leaf nodes)
and constructors of one inductive `Expr` (for the recursive nodes); every
method is translated clause by clause from the source.  Go `nil` pointers
become `Option`; a nil-pointer dereference in a position method is
modelled by `Option Pos` results propagating `none`.
-/

namespace ClickHouseAst

/-- Byte offset into the source, as in the Go `Pos` type (an integer). -/
abbrev Pos := Nat

/-- Token kind, a string in the Go implementation (`type TokenKind string`). -/
abbrev TokenKind := String

/-- Modelled from the spec: `NewLine(level)` "emits a newline followed by
`level * indentWidth` spaces"; the function itself lives outside `src/`.
`indentWidth` is 2, pinned by the spec's scenario `SELECT 1` printing as
`"\nSELECT \n  1"` (one level of indent = two spaces). -/
def NewLine (level : Nat) : String :=
  "\n" ++ String.join (List.replicate (level * 2) " ")

/-- Modelled from the spec: the quote-style constant for back-tick quoted
identifiers.  The constants are declared outside `src/`; `Ident.String`
only compares `QuoteType` against them for equality, so all that matters
is that they are distinct. -/
def BackTicks : Nat := 1

/-- Modelled from the spec: the quote-style constant for double-quoted
identifiers (see `BackTicks`). -/
def DoubleQuote : Nat := 2

/-- Modelled from the spec: the token kind of the cast operator `::`
(spec section 3 lists it among the operators); the constant `opTypeCast`
is declared outside `src/`.  `BinaryExpr.String` only compares the stored
operation against it for equality. -/
def opTypeCast : TokenKind := "::"

/-- Go struct `NumberLiteral`: `NumPos`, `NumEnd`, `Literal`, `Base`. -/
structure NumberLiteral where
  numPos : Pos
  numEnd : Pos
  literal : String
  base : Nat
deriving DecidableEq

/-- Go struct `StringLiteral`: `LiteralPos`, `LiteralEnd`, `Literal`. -/
structure StringLiteral where
  literalPos : Pos
  literalEnd : Pos
  literal : String
deriving DecidableEq

/-- Go struct `Ident`: `Name`, `QuoteType`, `NamePos`, `NameEnd`. -/
structure Ident where
  name : String
  quoteType : Nat
  namePos : Pos
  nameEnd : Pos
deriving DecidableEq

/-- Go struct `RatioExpr`: `Numerator *NumberLiteral`,
`Denominator *NumberLiteral` (nil-able). -/
structure RatioExpr where
  numerator : NumberLiteral
  denominator : Option NumberLiteral
deriving DecidableEq

/-- Go struct `SampleRatioExpr`: `SamplePos`, `Ratio *RatioExpr`,
`Offset *RatioExpr` (nil-able). -/
structure SampleRatioExpr where
  samplePos : Pos
  ratio : RatioExpr
  offset : Option RatioExpr
deriving DecidableEq

/-- Go struct `TableIdentifier`: `Database *Ident` (nil-able),
`Table *Ident`. -/
structure TableIdentifier where
  database : Option Ident
  table : Ident
deriving DecidableEq

/-- The AST node variants needed for the claims, one constructor per Go
struct implementing the `Expr` interface.  Child fields whose Go type is
a pointer to a recursive struct are embedded as `Expr` / `Option Expr`
(Go's static typing restricts which constructor can actually occur
there; the methods only use those children through the shared `Expr`
interface, which the recursive calls below reproduce). -/
inductive Expr where
  | numberLiteral (n : NumberLiteral)
  | stringLiteral (s : StringLiteral)
  | ident (i : Ident)
  | tableIdentifier (t : TableIdentifier)
  | binaryExpr (leftExpr : Expr) (operation : TokenKind) (rightExpr : Expr)
      (hasGlobal : Bool) (hasNot : Bool)
  | ternaryExpr (condition : Expr) (trueExpr : Expr) (falseExpr : Expr)
  | unaryExpr (unaryPos : Pos) (kind : TokenKind) (expr : Expr)
  | columnExprList (listPos : Pos) (listEnd : Pos) (hasDistinct : Bool) (items : List Expr)
  | ratioExpr (r : RatioExpr)
  | sampleRatioExpr (s : SampleRatioExpr)
  | tableExpr (tablePos : Pos) (tableEnd : Pos) (aliasE : Option Expr)
      (expr : Expr) (hasFinal : Bool)
  | joinTableExpr (table : Expr) (statementEnd : Pos)
      (sampleRatio : Option SampleRatioExpr) (hasFinal : Bool)
  | joinExpr (joinPos : Pos) (left : Expr) (right : Option Expr)
      (modifiers : List String) (constraints : Option Expr)
  | fromExpr (fromPos : Pos) (expr : Expr)
  | limitExpr (limitPos : Pos) (limit : Expr) (offset : Option Expr)
  | limitByExpr (limit : Expr) (byExpr : Option Expr)
  | partitionExpr (partitionPos : Pos) (expr : Option Expr)
      (id : Option StringLiteral) (all : Bool)
  | checkExpr (checkPos : Pos) (table : TableIdentifier) (partition : Option Expr)
  | withExpr (withPos : Pos) (endPos : Pos) (ctes : List Expr)
  | selectQuery (selectPos : Pos) (statementEnd : Pos)
      (withE : Option Expr) (top : Option Expr) (selectColumns : Expr)
      (fromE : Option Expr) (arrayJoin : Option Expr) (window : Option Expr)
      (prewhere : Option Expr) (whereE : Option Expr) (groupBy : Option Expr)
      (withTotal : Bool) (having : Option Expr) (orderBy : Option Expr)
      (limitBy : Option Expr) (limit : Option Expr) (settings : Option Expr)
      (unionAll : Option Expr) (unionDistinct : Option Expr) (exceptE : Option Expr)

/-- Field access `s.SelectColumns.HasDistinct` on the statically typed
`*ColumnExprList` pointer in `SelectQuery.String`. -/
def hasDistinctOf : Expr → Bool
  | .columnExprList _ _ hasDistinct _ => hasDistinct
  | _ => false

/-- Go `RatioExpr.End`: the denominator's `NumEnd` when present, else the
numerator's. -/
def ratioEnd (r : RatioExpr) : Pos :=
  match r.denominator with
  | some d => d.numEnd
  | none => r.numerator.numEnd

/-- Go `SampleRatioExpr.End`: the offset's end when present, else the
ratio's. -/
def sampleRatioEnd (s : SampleRatioExpr) : Pos :=
  match s.offset with
  | some o => ratioEnd o
  | none => ratioEnd s.ratio

/-- Go `Pos()` per node variant, translated clause by clause from
`ast.go`.  The result is `Option Pos`: `none` marks a Go nil-pointer
dereference (a runtime panic), which propagates to every caller. -/
def posE : Expr → Option Pos
  | .numberLiteral n => some n.numPos
  | .stringLiteral s => some s.literalPos
  | .ident i => some i.namePos
  | .tableIdentifier t =>
    -- if t.Database != nil { return t.Database.Pos() } return t.Table.Pos()
    match t.database with
    | some d => some d.namePos
    | none => some t.table.namePos
  | .binaryExpr leftExpr _ _ _ _ => posE leftExpr
  | .ternaryExpr condition _ _ => posE condition
  | .unaryExpr unaryPos _ _ => some unaryPos
  | .columnExprList listPos _ _ _ => some listPos
  | .ratioExpr r => some r.numerator.numPos
  | .sampleRatioExpr s => some s.samplePos
  | .tableExpr tablePos _ _ _ _ => some tablePos
  | .joinTableExpr table _ _ _ => posE table
  | .joinExpr joinPos _ _ _ _ => some joinPos
  | .fromExpr fromPos _ => some fromPos
  | .limitExpr limitPos _ _ => some limitPos
  | .limitByExpr limit _ => posE limit
  | .partitionExpr partitionPos _ _ _ => some partitionPos
  | .checkExpr checkPos _ _ => some checkPos
  | .withExpr withPos _ _ => some withPos
  | .selectQuery selectPos _ _ _ _ _ _ _ _ _ _ _ _ _ _ _ _ _ _ _ => some selectPos

/-- Go `End()` per node variant, translated clause by clause from
`ast.go`.  `none` marks a Go nil-pointer dereference: in particular
`CheckExpr.End` evaluates `c.Partition.End()` without a nil check, and
`PartitionExpr.End` falls through to `p.Expr.End()` without one. -/
def endE : Expr → Option Pos
  | .numberLiteral n => some n.numEnd
  | .stringLiteral s => some s.literalEnd
  | .ident i => some i.nameEnd
  | .tableIdentifier t => some t.table.nameEnd
  | .binaryExpr _ _ rightExpr _ _ => endE rightExpr
  | .ternaryExpr _ _ falseExpr => endE falseExpr
  | .unaryExpr _ _ expr => endE expr
  | .columnExprList _ listEnd _ _ => some listEnd
  | .ratioExpr r => some (ratioEnd r)
  | .sampleRatioExpr s => some (sampleRatioEnd s)
  | .tableExpr _ tableEnd _ _ _ => some tableEnd
  | .joinTableExpr _ statementEnd _ _ => some statementEnd
  | .joinExpr _ left _ _ _ =>
    -- Go: func (j *JoinExpr) End() Pos { return j.Left.End() }
    endE left
  | .fromExpr _ expr => endE expr
  | .limitExpr _ limit offset =>
    match offset with
    | some o => endE o
    | none => endE limit
  | .limitByExpr limit byExpr =>
    -- Go checks ByExpr, then Limit, then dereferences Limit anyway; with a
    -- present limit the last two branches coincide.
    match byExpr with
    | some b => endE b
    | none => endE limit
  | .partitionExpr _ expr id _ =>
    match id with
    | some i => some i.literalEnd
    | none =>
      match expr with
      | some e => endE e
      | none => none
  | .checkExpr _ _ partition =>
    -- Go: return c.Partition.End() — no nil check on Partition.
    match partition with
    | some p => endE p
    | none => none
  | .withExpr _ endPos _ => some endPos
  | .selectQuery _ statementEnd _ _ _ _ _ _ _ _ _ _ _ _ _ _ _ _ _ _ => some statementEnd

/-- Go `NumberLiteral.String`: the stored lexeme, ignoring the level. -/
def numberLiteralString (n : NumberLiteral) : String :=
  n.literal

/-- Go `StringLiteral.String`: the literal wrapped in single quotes. -/
def stringLiteralString (s : StringLiteral) : String :=
  "'" ++ s.literal ++ "'"

/-- Go `Ident.String`: re-emit with the captured quote style. -/
def identString (i : Ident) : String :=
  if i.quoteType = BackTicks then
    "`" ++ i.name ++ "`"
  else if i.quoteType = DoubleQuote then
    "\"" ++ i.name ++ "\""
  else
    i.name

/-- Go `TableIdentifier.String`: `db.table` when the database part is
present, else just the table. -/
def tableIdentifierString (t : TableIdentifier) : String :=
  match t.database with
  | some d => identString d ++ "." ++ identString t.table
  | none => identString t.table

/-- Go `RatioExpr.String`: numerator, then `/denominator` when present. -/
def ratioString (r : RatioExpr) : String :=
  numberLiteralString r.numerator ++
    (match r.denominator with
     | some d => "/" ++ numberLiteralString d
     | none => "")

/-- Go `SampleRatioExpr.String`: `SAMPLE ratio [ OFFSET offset]`. -/
def sampleRatioString (s : SampleRatioExpr) : String :=
  "SAMPLE " ++ ratioString s.ratio ++
    (match s.offset with
     | some o => " OFFSET " ++ ratioString o
     | none => "")

/-- The type check `f.Expr.(*JoinTableExpr)` plus the nil test on its
`Table` and the type check `joinTableExpr.Table.Expr.(*SelectQuery)` in
`FromExpr.String`. -/
def fromIsSubquery : Expr → Bool
  | .joinTableExpr (.tableExpr _ _ _ (.selectQuery ..) _) _ _ _ => true
  | _ => false


/-- An optional clause printed as `NewLine(level)` followed by the
clause's already-rendered text, the shared shape of `SelectQuery.String`'s
`if s.X != nil { builder.WriteString(NewLine(level)); builder.WriteString(s.X.String(level)) }`
blocks. -/
def clauseString (rendered : Option String) (level : Nat) : String :=
  match rendered with
  | some s => NewLine level ++ s
  | none => ""

mutual

/-- Go `String(level)` per node variant, translated clause by clause from
`ast.go`.  Loops of the shape `for i, x := range xs { emit(x); if i !=
len(xs)-1 { sep } }` become `String.intercalate sep` over the mapped
list.  Field accesses through statically typed child pointers
(`s.With.CTEs`, `s.SelectColumns.Items`) become deep pattern matches
whose fallback arm (unreachable for well-typed Go trees) yields the
empty list. -/
def stringE : Expr → Nat → String
  | .numberLiteral n, _ => numberLiteralString n
  | .stringLiteral s, _ => stringLiteralString s
  | .ident i, _ => identString i
  | .tableIdentifier t, _ => tableIdentifierString t
  | .binaryExpr leftExpr operation rightExpr hasGlobal hasNot, level =>
    stringE leftExpr level
    ++ (if operation ≠ opTypeCast then " " else "")
    ++ (if hasNot then "NOT " else if hasGlobal then "GLOBAL " else "")
    ++ operation
    ++ (if operation ≠ opTypeCast then " " else "")
    ++ stringE rightExpr level
  | .ternaryExpr condition trueExpr falseExpr, level =>
    stringE condition level ++ " ? " ++ stringE trueExpr level
      ++ " : " ++ stringE falseExpr level
  | .unaryExpr _ _ expr, level =>
    -- Go: return "-" + n.Expr.String(level+1) — the stored Kind is unused.
    "-" ++ stringE expr (level + 1)
  | .columnExprList _ _ hasDistinct items, level =>
    (if hasDistinct then "DISTINCT " else "")
      ++ String.intercalate ", " (stringMap items level)
  | .ratioExpr r, _ => ratioString r
  | .sampleRatioExpr s, _ => sampleRatioString s
  | .tableExpr _ _ aliasE expr hasFinal, level =>
    stringE expr (level + 1)
    ++ (match aliasE with
        | some a => " " ++ stringE a (level + 1)
        | none => "")
    ++ (if hasFinal then " FINAL" else "")
  | .joinTableExpr table _ sampleRatio hasFinal, level =>
    stringE table level
    ++ (match sampleRatio with
        | some s => " " ++ sampleRatioString s
        | none => "")
    ++ (if hasFinal then " FINAL" else "")
  | .joinExpr _ left right _ _, level =>
    -- Go: j.Left.String(level), then buildJoinString(&b, j.Right, level)
    -- guarded by j.Right != nil; the guard and the helper are combined in
    -- `joinTail` below.
    stringE left level ++ joinTail right level
  | .fromExpr _ expr, level =>
    "FROM"
    ++ (if fromIsSubquery expr then " (" else "")
    ++ NewLine (level + 1)
    ++ stringE expr (level + 1)
    ++ (if fromIsSubquery expr then ")" else "")
  | .limitExpr _ limit offset, level =>
    "LIMIT " ++ stringE limit level
    ++ (match offset with
        | some o => " OFFSET " ++ stringE o level
        | none => "")
  | .limitByExpr limit byExpr, level =>
    -- Go writes `"LIMIT "` and `l.Limit.String`, then re-emits
    -- `" OFFSET "` and `l.Limit.String` again under `if l.Limit != nil` —
    -- a check that is always true here, the limit having just been
    -- dereferenced unconditionally.
    "LIMIT " ++ stringE limit level
    ++ " OFFSET " ++ stringE limit level
    ++ (match byExpr with
        | some b => " BY " ++ stringE b level
        | none => "")
  | .partitionExpr _ expr id all, level =>
    "PARTITION "
    ++ (match id with
        | some i => stringLiteralString i
        | none =>
          if all then "ALL"
          else
            match expr with
            | some e => stringE e level
            | none => ""  -- Go dereferences p.Expr here and would panic.
  )
  | .checkExpr _ table partition, level =>
    "CHECK TABLE " ++ tableIdentifierString table
    ++ NewLine level
    ++ (match partition with
        | some p => stringE p level
        | none => "")
  | .withExpr _ _ ctes, level =>
    "WITH " ++ String.intercalate ", " (stringMap ctes (level + 1))
  | .selectQuery _ _ withE top selectColumns fromE arrayJoin window prewhere
      whereE groupBy _ having orderBy limitBy limit settings unionAll
      unionDistinct exceptE, level =>
    -- Each child is rendered exactly as `SelectQuery.String` renders it;
    -- the pieces are then concatenated in the source's emission order.
    let cteStrs : Option (List String) :=
      match withE with
      | some (.withExpr _ _ ctes) => some (stringMap ctes level)
      | some _ => some []
      | none => none
    let topStr := match top with
      | some t => some (stringE t level)
      | none => none
    let colStrs := match selectColumns with
      | .columnExprList _ _ _ items => stringMap items level
      | _ => []
    let fromStr := match fromE with
      | some f => some (stringE f level)
      | none => none
    let arrayJoinStr := match arrayJoin with
      | some a => some (stringE a level)
      | none => none
    let windowStr := match window with
      | some w => some (stringE w level)
      | none => none
    let prewhereStr := match prewhere with
      | some p => some (stringE p level)
      | none => none
    let whereStr := match whereE with
      | some w => some (stringE w level)
      | none => none
    let groupByStr := match groupBy with
      | some g => some (stringE g level)
      | none => none
    let havingStr := match having with
      | some h => some (stringE h level)
      | none => none
    let orderByStr := match orderBy with
      | some o => some (stringE o level)
      | none => none
    let limitByStr := match limitBy with
      | some l => some (stringE l level)
      | none => none
    let limitStr := match limit with
      | some l => some (stringE l level)
      | none => none
    let settingsStr := match settings with
      | some s => some (stringE s level)
      | none => none
    let unionAllStr := match unionAll with
      | some u => some (stringE u level)
      | none => none
    let unionDistinctStr := match unionDistinct with
      | some u => some (stringE u level)
      | none => none
    let exceptStr := match exceptE with
      | some u => some (stringE u level)
      | none => none
    (match cteStrs with
     | some strs =>
       "WITH" ++ String.intercalate ","
         (strs.map (fun s => NewLine (level + 1) ++ s))
     | none => "")
    ++ NewLine level ++ "SELECT "
    ++ (match topStr with
        | some s => NewLine (level + 1) ++ s ++ " "
        | none => "")
    ++ (if hasDistinctOf selectColumns then "DISTINCT " else "")
    ++ String.intercalate ","
         (colStrs.map (fun s => NewLine (level + 1) ++ s))
    ++ clauseString fromStr level
    ++ clauseString arrayJoinStr level
    ++ clauseString windowStr level
    ++ clauseString prewhereStr level
    ++ clauseString whereStr level
    ++ clauseString groupByStr level
    ++ clauseString havingStr level
    ++ clauseString orderByStr level
    ++ clauseString limitByStr level
    ++ clauseString limitStr level
    ++ clauseString settingsStr level
    ++ (match unionAllStr with
        | some s => NewLine level ++ " UNION ALL " ++ s
        | none =>
          match unionDistinctStr with
          | some s => NewLine level ++ " UNION DISTINCT " ++ s
          | none =>
            match exceptStr with
            | some s => NewLine level ++ " EXCEPT " ++ s
            | none => "")

/-- Go `buildJoinString` together with its `j.Right != nil` call guard:
`joinTail none` is the guard's skipped call, `joinTail (some e)` is
`buildJoinString(&builder, e, level)` — descend the right spine of the
join tree, emitting either a comma or the modifier list before each
step. -/
def joinTail : Option Expr → Nat → String
  | none, _ => ""
  | some (.joinExpr _ left right modifiers constraints), level =>
    (if modifiers = ([] : List String) then ","
     else NewLine level ++ String.intercalate " " modifiers ++ " ")
    ++ stringE left level
    ++ (match constraints with
        | some c => " " ++ stringE c level
        | none => "")
    ++ joinTail right level
  | some e, level => "," ++ stringE e level

/-- Per-element `String(level)` over a child list, in order. -/
def stringMap : List Expr → Nat → List String
  | [], _ => []
  | x :: xs, level => stringE x level :: stringMap xs level

end

/-- One observable step of a traversal: the `enter(node)` and
`leave(node)` calls (which return nothing in Go) and the invocation of
the node's per-variant `Visit<Variant>` hook. -/
inductive Event where
  | enter (node : Expr)
  | leave (node : Expr)
  | visit (node : Expr)

/-- Modelled from the spec: the `ASTVisitor` interface is declared
outside `src/`; its shape — one `Visit<Variant>` hook per node variant
returning a single failure value (`error`, here `Option ε` with `none`
for success), plus `enter`/`leave` called around every node — is fixed
by spec section 4.3 and by the `Accept` methods in `ast.go` that call
it.  Each hook receives the node it is invoked on.  `enter` and `leave`
return nothing; their invocations are recorded as trace `Event`s by
`accept` below. -/
structure ASTVisitor (ε : Type) where
  visitNumberLiteral : Expr → Option ε
  visitStringLiteral : Expr → Option ε
  visitIdent : Expr → Option ε
  visitTableIdentifier : Expr → Option ε
  visitBinaryExpr : Expr → Option ε
  visitTernaryExpr : Expr → Option ε
  visitUnaryExpr : Expr → Option ε
  visitColumnExprList : Expr → Option ε
  visitRatioExpr : Expr → Option ε
  visitSampleRatioExpr : Expr → Option ε
  visitTableExpr : Expr → Option ε
  visitJoinTableExpr : Expr → Option ε
  visitJoinExpr : Expr → Option ε
  visitFromExpr : Expr → Option ε
  visitLimitExpr : Expr → Option ε
  visitLimitByExpr : Expr → Option ε
  visitPartitionExpr : Expr → Option ε
  visitCheckExpr : Expr → Option ε
  visitWithExpr : Expr → Option ε
  visitSelectQuery : Expr → Option ε

/-- The common shape of every `Accept` method in `ast.go`:
`visitor.enter(e)`, `defer visitor.leave(e)`, the child traversals
(`body`), and — only when no child failed — the node's own
`Visit<Variant>` hook (`hook`).  The deferred `leave` runs on every
exit path. -/
def wrapNode {ε : Type} (e : Expr) (hook : Option ε)
    (body : List Event × Option ε) : List Event × Option ε :=
  match body with
  | (tr, some err) => (.enter e :: tr ++ [.leave e], some err)
  | (tr, none) => (.enter e :: tr ++ [.visit e, .leave e], hook)

/-- Sequential child traversals with Go's early `return err`: each
`if err := child.Accept(visitor); err != nil { return err }` block in
sequence; traversals after the first failure never run (their results
here are discarded unevaluated — the functions are pure). -/
def seqAccept {ε : Type} : List (List Event × Option ε) → List Event × Option ε
  | [] => ([], none)
  | (tr, some err) :: _ => (tr, some err)
  | (tr, none) :: rest =>
    match seqAccept rest with
    | (tr2, res) => (tr ++ tr2, res)

/-- Go `NumberLiteral.Accept`: enter, `VisitNumberLiteral`, leave. -/
def acceptNumberLiteral {ε : Type} (v : ASTVisitor ε) (n : NumberLiteral) :
    List Event × Option ε :=
  ([.enter (.numberLiteral n), .visit (.numberLiteral n), .leave (.numberLiteral n)],
   v.visitNumberLiteral (.numberLiteral n))

/-- Go `StringLiteral.Accept`: enter, `VisitStringLiteral`, leave. -/
def acceptStringLiteral {ε : Type} (v : ASTVisitor ε) (s : StringLiteral) :
    List Event × Option ε :=
  ([.enter (.stringLiteral s), .visit (.stringLiteral s), .leave (.stringLiteral s)],
   v.visitStringLiteral (.stringLiteral s))

/-- Go `Ident.Accept`: enter, `VisitIdent`, leave. -/
def acceptIdent {ε : Type} (v : ASTVisitor ε) (i : Ident) :
    List Event × Option ε :=
  ([.enter (.ident i), .visit (.ident i), .leave (.ident i)],
   v.visitIdent (.ident i))

/-- Go `RatioExpr.Accept`: numerator, optional denominator,
`VisitRatioExpr`. -/
def acceptRatio {ε : Type} (v : ASTVisitor ε) (r : RatioExpr) :
    List Event × Option ε :=
  wrapNode (.ratioExpr r) (v.visitRatioExpr (.ratioExpr r))
    (seqAccept [acceptNumberLiteral v r.numerator,
                match r.denominator with
                | some d => acceptNumberLiteral v d
                | none => ([], none)])

/-- Go `SampleRatioExpr.Accept`: ratio, optional offset,
`VisitSampleRatioExpr`. -/
def acceptSampleRatio {ε : Type} (v : ASTVisitor ε) (s : SampleRatioExpr) :
    List Event × Option ε :=
  wrapNode (.sampleRatioExpr s) (v.visitSampleRatioExpr (.sampleRatioExpr s))
    (seqAccept [acceptRatio v s.ratio,
                match s.offset with
                | some o => acceptRatio v o
                | none => ([], none)])

/-- Go `TableIdentifier.Accept`: optional database, table,
`VisitTableIdentifier`. -/
def acceptTableIdentifier {ε : Type} (v : ASTVisitor ε) (t : TableIdentifier) :
    List Event × Option ε :=
  wrapNode (.tableIdentifier t) (v.visitTableIdentifier (.tableIdentifier t))
    (seqAccept [(match t.database with
                 | some d => acceptIdent v d
                 | none => ([], none)),
                acceptIdent v t.table])

mutual

/-- Go `Accept(visitor)` per node variant, translated clause by clause
from `ast.go`: enter, children in source order with early return on the
first failure, the per-variant `Visit<Variant>` hook, and the deferred
leave.  `JoinTableExpr.Accept` is the one deviation from `wrapNode`'s
shape: when `SampleRatio` is non-nil it returns
`j.SampleRatio.Accept(visitor)` directly, so `VisitJoinTableExpr` is
never invoked on that path. -/
def accept {ε : Type} (v : ASTVisitor ε) : Expr → List Event × Option ε
  | .numberLiteral n => acceptNumberLiteral v n
  | .stringLiteral s => acceptStringLiteral v s
  | .ident i => acceptIdent v i
  | .tableIdentifier t => acceptTableIdentifier v t
  | .binaryExpr leftExpr operation rightExpr hasGlobal hasNot =>
    wrapNode (.binaryExpr leftExpr operation rightExpr hasGlobal hasNot)
      (v.visitBinaryExpr (.binaryExpr leftExpr operation rightExpr hasGlobal hasNot))
      (seqAccept [accept v leftExpr, accept v rightExpr])
  | .ternaryExpr condition trueExpr falseExpr =>
    -- Child order in the source: TrueExpr, FalseExpr, Condition.
    wrapNode (.ternaryExpr condition trueExpr falseExpr)
      (v.visitTernaryExpr (.ternaryExpr condition trueExpr falseExpr))
      (seqAccept [accept v trueExpr, accept v falseExpr, accept v condition])
  | .unaryExpr unaryPos kind expr =>
    wrapNode (.unaryExpr unaryPos kind expr)
      (v.visitUnaryExpr (.unaryExpr unaryPos kind expr))
      (accept v expr)
  | .columnExprList listPos listEnd hasDistinct items =>
    wrapNode (.columnExprList listPos listEnd hasDistinct items)
      (v.visitColumnExprList (.columnExprList listPos listEnd hasDistinct items))
      (acceptList v items)
  | .ratioExpr r => acceptRatio v r
  | .sampleRatioExpr s => acceptSampleRatio v s
  | .tableExpr tablePos tableEnd aliasE expr hasFinal =>
    wrapNode (.tableExpr tablePos tableEnd aliasE expr hasFinal)
      (v.visitTableExpr (.tableExpr tablePos tableEnd aliasE expr hasFinal))
      (seqAccept [accept v expr, acceptOpt v aliasE])
  | .joinTableExpr table statementEnd sampleRatio hasFinal =>
    (match sampleRatio with
     | some s =>
       -- Go: if j.SampleRatio != nil { return j.SampleRatio.Accept(visitor) }
       -- — the result is returned directly, skipping VisitJoinTableExpr;
       -- the deferred leave still runs.
       match seqAccept [accept v table, acceptSampleRatio v s] with
       | (tr, res) =>
         (.enter (.joinTableExpr table statementEnd sampleRatio hasFinal) :: tr
           ++ [.leave (.joinTableExpr table statementEnd sampleRatio hasFinal)], res)
     | none =>
       wrapNode (.joinTableExpr table statementEnd sampleRatio hasFinal)
         (v.visitJoinTableExpr (.joinTableExpr table statementEnd sampleRatio hasFinal))
         (accept v table))
  | .joinExpr joinPos left right modifiers constraints =>
    wrapNode (.joinExpr joinPos left right modifiers constraints)
      (v.visitJoinExpr (.joinExpr joinPos left right modifiers constraints))
      (seqAccept [accept v left, acceptOpt v right, acceptOpt v constraints])
  | .fromExpr fromPos expr =>
    wrapNode (.fromExpr fromPos expr)
      (v.visitFromExpr (.fromExpr fromPos expr))
      (accept v expr)
  | .limitExpr limitPos limit offset =>
    wrapNode (.limitExpr limitPos limit offset)
      (v.visitLimitExpr (.limitExpr limitPos limit offset))
      (seqAccept [accept v limit, acceptOpt v offset])
  | .limitByExpr limit byExpr =>
    wrapNode (.limitByExpr limit byExpr)
      (v.visitLimitByExpr (.limitByExpr limit byExpr))
      (seqAccept [accept v limit, acceptOpt v byExpr])
  | .partitionExpr partitionPos expr id all =>
    wrapNode (.partitionExpr partitionPos expr id all)
      (v.visitPartitionExpr (.partitionExpr partitionPos expr id all))
      (seqAccept [acceptOpt v expr,
                  match id with
                  | some i => acceptStringLiteral v i
                  | none => ([], none)])
  | .checkExpr checkPos table partition =>
    wrapNode (.checkExpr checkPos table partition)
      (v.visitCheckExpr (.checkExpr checkPos table partition))
      (seqAccept [acceptTableIdentifier v table, acceptOpt v partition])
  | .withExpr withPos endPos ctes =>
    wrapNode (.withExpr withPos endPos ctes)
      (v.visitWithExpr (.withExpr withPos endPos ctes))
      (acceptList v ctes)
  | .selectQuery selectPos statementEnd withE top selectColumns fromE arrayJoin
      window prewhere whereE groupBy withTotal having orderBy limitBy limit
      settings unionAll unionDistinct exceptE =>
    wrapNode (.selectQuery selectPos statementEnd withE top selectColumns fromE
        arrayJoin window prewhere whereE groupBy withTotal having orderBy
        limitBy limit settings unionAll unionDistinct exceptE)
      (v.visitSelectQuery (.selectQuery selectPos statementEnd withE top
        selectColumns fromE arrayJoin window prewhere whereE groupBy withTotal
        having orderBy limitBy limit settings unionAll unionDistinct exceptE))
      (seqAccept [acceptOpt v withE, acceptOpt v top, accept v selectColumns,
                  acceptOpt v fromE, acceptOpt v arrayJoin, acceptOpt v window,
                  acceptOpt v prewhere, acceptOpt v whereE, acceptOpt v groupBy,
                  acceptOpt v having, acceptOpt v orderBy, acceptOpt v limitBy,
                  acceptOpt v limit, acceptOpt v settings, acceptOpt v unionAll,
                  acceptOpt v unionDistinct, acceptOpt v exceptE])

/-- An optional child's `if child != nil { child.Accept(visitor) }`
guard: absent children contribute nothing to the traversal. -/
def acceptOpt {ε : Type} (v : ASTVisitor ε) : Option Expr → List Event × Option ε
  | none => ([], none)
  | some e => accept v e

/-- A child list's `for _, item := range items { if err :=
item.Accept(visitor); err != nil { return err } }` loop. -/
def acceptList {ε : Type} (v : ASTVisitor ε) : List Expr → List Event × Option ε
  | [] => ([], none)
  | x :: xs =>
    match accept v x with
    | (tr, some err) => (tr, some err)
    | (tr, none) =>
      match acceptList v xs with
      | (tr2, res) => (tr ++ tr2, res)

end

/-- The child traversals of a list field, one result per element in
order (the elementwise form of `acceptList`'s loop). -/
def acceptsOf {ε : Type} (v : ASTVisitor ε) : List Expr → List (List Event × Option ε)
  | [] => []
  | x :: xs => accept v x :: acceptsOf v xs

/-- The child-traversal results of a node, in the node's source order —
one entry per `if err := child.Accept(visitor); err != nil { return err }`
block of the corresponding Go `Accept` method (absent optional children
contribute the empty succeeding step, exactly as their skipped guard
does). -/
def acceptChildren {ε : Type} (v : ASTVisitor ε) : Expr → List (List Event × Option ε)
  | .numberLiteral _ => []
  | .stringLiteral _ => []
  | .ident _ => []
  | .tableIdentifier t =>
    [(match t.database with
      | some d => acceptIdent v d
      | none => ([], none)),
     acceptIdent v t.table]
  | .binaryExpr leftExpr _ rightExpr _ _ => [accept v leftExpr, accept v rightExpr]
  | .ternaryExpr condition trueExpr falseExpr =>
    [accept v trueExpr, accept v falseExpr, accept v condition]
  | .unaryExpr _ _ expr => [accept v expr]
  | .columnExprList _ _ _ items => acceptsOf v items
  | .ratioExpr r =>
    [acceptNumberLiteral v r.numerator,
     match r.denominator with
     | some d => acceptNumberLiteral v d
     | none => ([], none)]
  | .sampleRatioExpr s =>
    [acceptRatio v s.ratio,
     match s.offset with
     | some o => acceptRatio v o
     | none => ([], none)]
  | .tableExpr _ _ aliasE expr _ => [accept v expr, acceptOpt v aliasE]
  | .joinTableExpr table _ sampleRatio _ =>
    (match sampleRatio with
     | some s => [accept v table, acceptSampleRatio v s]
     | none => [accept v table])
  | .joinExpr _ left right _ constraints =>
    [accept v left, acceptOpt v right, acceptOpt v constraints]
  | .fromExpr _ expr => [accept v expr]
  | .limitExpr _ limit offset => [accept v limit, acceptOpt v offset]
  | .limitByExpr limit byExpr => [accept v limit, acceptOpt v byExpr]
  | .partitionExpr _ expr id _ =>
    [acceptOpt v expr,
     match id with
     | some i => acceptStringLiteral v i
     | none => ([], none)]
  | .checkExpr _ table partition =>
    [acceptTableIdentifier v table, acceptOpt v partition]
  | .withExpr _ _ ctes => acceptsOf v ctes
  | .selectQuery _ _ withE top selectColumns fromE arrayJoin window prewhere
      whereE groupBy _ having orderBy limitBy limit settings unionAll
      unionDistinct exceptE =>
    [acceptOpt v withE, acceptOpt v top, accept v selectColumns,
     acceptOpt v fromE, acceptOpt v arrayJoin, acceptOpt v window,
     acceptOpt v prewhere, acceptOpt v whereE, acceptOpt v groupBy,
     acceptOpt v having, acceptOpt v orderBy, acceptOpt v limitBy,
     acceptOpt v limit, acceptOpt v settings, acceptOpt v unionAll,
     acceptOpt v unionDistinct, acceptOpt v exceptE]

/-- The node's own per-variant `Visit<Variant>` hook, as invoked at the
end of its Go `Accept` method. -/
def visitHookOf {ε : Type} (v : ASTVisitor ε) : Expr → Option ε
  | e@(.numberLiteral _) => v.visitNumberLiteral e
  | e@(.stringLiteral _) => v.visitStringLiteral e
  | e@(.ident _) => v.visitIdent e
  | e@(.tableIdentifier _) => v.visitTableIdentifier e
  | e@(.binaryExpr _ _ _ _ _) => v.visitBinaryExpr e
  | e@(.ternaryExpr _ _ _) => v.visitTernaryExpr e
  | e@(.unaryExpr _ _ _) => v.visitUnaryExpr e
  | e@(.columnExprList _ _ _ _) => v.visitColumnExprList e
  | e@(.ratioExpr _) => v.visitRatioExpr e
  | e@(.sampleRatioExpr _) => v.visitSampleRatioExpr e
  | e@(.tableExpr _ _ _ _ _) => v.visitTableExpr e
  | e@(.joinTableExpr _ _ _ _) => v.visitJoinTableExpr e
  | e@(.joinExpr _ _ _ _ _) => v.visitJoinExpr e
  | e@(.fromExpr _ _) => v.visitFromExpr e
  | e@(.limitExpr _ _ _) => v.visitLimitExpr e
  | e@(.limitByExpr _ _) => v.visitLimitByExpr e
  | e@(.partitionExpr _ _ _ _) => v.visitPartitionExpr e
  | e@(.checkExpr _ _ _) => v.visitCheckExpr e
  | e@(.withExpr _ _ _) => v.visitWithExpr e
  | e@(.selectQuery _ _ _ _ _ _ _ _ _ _ _ _ _ _ _ _ _ _ _ _) => v.visitSelectQuery e

/-- The one node shape whose `Accept` method skips its own per-variant
hook: a `JoinTableExpr` with a non-nil `SampleRatio` (the C2 anomaly at
ast.go:149-151).  Every other `Accept` method follows the common
enter/children/hook/leave shape. -/
def skipsVisit : Expr → Bool
  | .joinTableExpr _ _ (some _) _ => true
  | _ => false

/-- The `Ident` case of `stringE`, as a standalone equation. -/
theorem stringE_ident_eq (i : Ident) (level : Nat) :
    stringE (.ident i) level = identString i := rfl

/-- The `CheckExpr` case of `stringE` with an absent partition clause,
as a standalone equation (the guarded `if c.Partition != nil` branch
contributes nothing). -/
theorem stringE_checkExpr_none_eq (checkPos : Pos) (t : TableIdentifier)
    (level : Nat) :
    stringE (.checkExpr checkPos t none) level
      = "CHECK TABLE " ++ tableIdentifierString t ++ NewLine level ++ "" := rfl

/-- A visitor whose hooks all succeed (every `Visit<Variant>` returns
nil), the shape of the default no-op visitor clients embed. -/
def noopVisitor (ε : Type) : ASTVisitor ε :=
  ⟨fun _ => none, fun _ => none, fun _ => none, fun _ => none, fun _ => none,
   fun _ => none, fun _ => none, fun _ => none, fun _ => none, fun _ => none,
   fun _ => none, fun _ => none, fun _ => none, fun _ => none, fun _ => none,
   fun _ => none, fun _ => none, fun _ => none, fun _ => none, fun _ => none⟩

/-- A visitor that fails (with value 7) exactly on number literals, used
to exercise failure propagation at a concrete input. -/
def failOnNumberVisitor : ASTVisitor Nat :=
  { noopVisitor Nat with visitNumberLiteral := fun _ => some 7 }

/-- The left operand of the C1 join: table `t` occupying bytes 5..6,
wrapped in `TableExpr` and `JoinTableExpr` as the parser builds `FROM`
operands. -/
def c1Left : Expr :=
  .joinTableExpr (.tableExpr 5 6 none (.ident ⟨"t", 0, 5, 6⟩) false) 6 none false

/-- The right operand of the C1 join: table `u` occupying bytes 18..19,
textually after the left operand. -/
def c1Right : Expr :=
  .joinTableExpr (.tableExpr 18 19 none (.ident ⟨"u", 0, 18, 19⟩) false) 19 none false

/-- The C1 join node, as for `FROM t INNER JOIN u`. -/
def c1Join : Expr := .joinExpr 5 c1Left (some c1Right) ["INNER JOIN"] none

/-- A `SAMPLE 1/10` clause (ratio 1/10, no offset). -/
def c2Sample : SampleRatioExpr := ⟨9, ⟨⟨16, 17, "1", 10⟩, some ⟨18, 20, "10", 10⟩⟩, none⟩

/-- The C2 node: a `JoinTableExpr` with a non-nil `SampleRatio`, as for
`FROM t SAMPLE 1/10`. -/
def c2JoinTable : Expr :=
  .joinTableExpr (.tableExpr 7 8 none (.ident ⟨"t", 0, 7, 8⟩) false) 20
    (some c2Sample) false

/-- The C3 node: `LimitByExpr` with limit expression `10` and by-column
list `x`, as for `... LIMIT 10 BY x`. -/
def c3LimitBy : Expr :=
  .limitByExpr (.limitExpr 20 (.numberLiteral ⟨26, 28, "10", 10⟩) none)
    (some (.columnExprList 32 33 false [.ident ⟨"x", 0, 32, 33⟩]))

/-- The number literal that `failOnNumberVisitor` fails on, used by the
C4 witness. -/
def c4Number : Expr := .numberLiteral ⟨0, 1, "1", 10⟩

/-- A second child for the C4 witness, never reached by the traversal. -/
def c4RightChild : Expr := .ident ⟨"y", 0, 4, 5⟩

/-- The binary node `1 + y` used by the C4 witness: its first child is
the number literal the failing visitor rejects. -/
def c4Binary : Expr := .binaryExpr c4Number "+" c4RightChild false false

/-- The select list of `SELECT 1`: the single column
`NumberLiteral{Literal:"1"}`. -/
def c5Columns : Expr := .columnExprList 8 9 false [.numberLiteral ⟨8, 9, "1", 10⟩]

/-- The AST of `SELECT 1`: a `SelectQuery` with that one column and
every other clause absent. -/
def c5Select : Expr :=
  .selectQuery 1 9 none none c5Columns none none none none none none false
    none none none none none none none none

/-- The AST of `SELECT 1 LIMIT 2 BY a`: as `c5Select` but with a
`LimitBy` clause. -/
def c8Select : Expr :=
  .selectQuery 0 21 none none c5Columns none none none none none none false
    none none
    (some (.limitByExpr (.limitExpr 9 (.numberLiteral ⟨15, 16, "2", 10⟩) none)
      (some (.columnExprList 20 21 false [.ident ⟨"a", 0, 20, 21⟩]))))
    none none none none none

/-- C1: the claim asserts position containment — in particular that a
`JoinExpr`'s non-nil `Right` child satisfies `Right.End() ≤
JoinExpr.End()`.  The code computes `JoinExpr.End()` as `j.Left.End()`,
ignoring `Right`: on the join of `t` (bytes 5..6) with `u` (bytes
18..19) the node's `End()` is 6 while the right child ends at 19, so the
child is not contained in the parent's range. -/
theorem c1_joinExpr_end_ignores_right :
    endE c1Join = some 6 ∧ endE c1Right = some 19 ∧ posE c1Join = some 5 ∧
    (6 : Pos) < 19 :=
  ⟨rfl, rfl, rfl, by norm_num⟩

/-- C2: the claim asserts that `VisitJoinTableExpr` is invoked exactly
once even when `SampleRatio` is non-nil.  In the code,
`JoinTableExpr.Accept` returns `j.SampleRatio.Accept(visitor)` directly
when the sample clause is present, so with an all-succeeding visitor the
traversal of `c2JoinTable` completes without error yet its trace
contains no `visit` event for the node: the hook is invoked zero
times. -/
theorem c2_joinTableExpr_visit_hook_skipped :
    (accept (noopVisitor Unit) c2JoinTable).2 = none ∧
    Event.visit c2JoinTable ∉ (accept (noopVisitor Unit) c2JoinTable).1 :=
  ⟨rfl, by
    simp [accept, acceptOpt, acceptSampleRatio, acceptRatio, acceptNumberLiteral,
      acceptIdent, seqAccept, wrapNode, noopVisitor, c2JoinTable, c2Sample,
      Event.visit.injEq]⟩

/-- C3: the claim asserts `LimitByExpr.String` emits the limit exactly
once, as `LIMIT n BY cols`.  The code emits the limit twice — once after
`"LIMIT "` and once more after `" OFFSET "` — producing
`LIMIT LIMIT 10 OFFSET LIMIT 10 BY x` instead of `LIMIT 10 BY x`. -/
theorem c3_limitByExpr_double_emission :
    stringE c3LimitBy 0 = "LIMIT LIMIT 10 OFFSET LIMIT 10 BY x" ∧
    stringE c3LimitBy 0 ≠ "LIMIT 10 BY x" :=
  ⟨rfl, by decide⟩

/-- Bridge: wrapping a single-child body in the one-element sequence is
the same as wrapping the child's result directly, so the single-child
`Accept` methods fit the common enter/children/hook/leave shape. -/
theorem wrapNode_seqAccept_single {ε : Type} (e : Expr) (hook : Option ε)
    (x : List Event × Option ε) :
    wrapNode e hook (seqAccept [x]) = wrapNode e hook x := by
  rcases x with ⟨tr, res⟩
  cases res <;> simp [seqAccept, wrapNode]

/-- Bridge: the `acceptList` loop is the sequential composition of the
elementwise child traversals. -/
theorem acceptList_eq_seqAccept {ε : Type} (v : ASTVisitor ε) (l : List Expr) :
    acceptList v l = seqAccept (acceptsOf v l) := by
  induction l with
  | nil => rfl
  | cons x xs ih =>
    rcases hx : accept v x with ⟨tr, res⟩
    cases res with
    | none => simp [acceptList, acceptsOf, seqAccept, hx, ih]
    | some err => simp [acceptList, acceptsOf, seqAccept, hx]

/-- C4: visitor error propagation, for every AST node and every visitor.
Conjunct 1 shows that every node except the anomalous
sample-ratio-carrying `JoinTableExpr` traverses as: enter, the children
in source order (`acceptChildren`), the node's own hook, leave
(`wrapNode` over `seqAccept`); conjunct 2 shows the anomalous shape
does the same minus its own hook, still propagating its children's
results.  Conjunct 3 shows that for a failure at ANY position of ANY
child sequence, the sequence's result is exactly that failure with the
traces of the preceding (succeeding) children, the later children never
traversed.  Conjunct 4 shows a node whose child sequence failed returns
exactly that failure, appends no `visit` event of its own — so, applied
along the path to the root, no ancestor of the failing node has its
per-variant hook invoked — and still emits the deferred leave.
Conjunct 5 shows that when all children succeed the node's own hook is
invoked once and its result (in particular its failure) is returned
unchanged.  Together: any failing step unwinds the traversal
immediately, the failure surfaces unchanged, subsequent children are
not visited, and ancestors' per-variant hooks are never called. -/
theorem c4_accept_error_propagation {ε : Type} (v : ASTVisitor ε) :
    (∀ e : Expr, skipsVisit e = false →
      accept v e = wrapNode e (visitHookOf v e) (seqAccept (acceptChildren v e))) ∧
    (∀ e : Expr, skipsVisit e = true →
      accept v e =
        (.enter e :: (seqAccept (acceptChildren v e)).1 ++ [.leave e],
         (seqAccept (acceptChildren v e)).2)) ∧
    (∀ (pre : List (List Event × Option ε)) (tr : List Event) (err : ε)
        (post : List (List Event × Option ε)),
      (∀ p ∈ pre, p.2 = none) →
      seqAccept (pre ++ (tr, some err) :: post) =
        ((pre.map Prod.fst).flatten ++ tr, some err)) ∧
    (∀ (e : Expr) (hook : Option ε) (tr : List Event) (err : ε),
      wrapNode e hook (tr, some err) = (.enter e :: tr ++ [.leave e], some err)) ∧
    (∀ (e : Expr) (hook : Option ε) (tr : List Event),
      wrapNode e hook (tr, none) =
        (.enter e :: tr ++ [.visit e, .leave e], hook)) := by
  refine ⟨?_, ?_, ?_, fun _ _ _ _ => rfl, fun _ _ _ => rfl⟩
  · intro e h
    cases e with
    | numberLiteral n => rfl
    | stringLiteral s => rfl
    | ident i => rfl
    | tableIdentifier t => rfl
    | binaryExpr l op r g n => rfl
    | ternaryExpr c t f => rfl
    | unaryExpr p k ex =>
      simp [accept, acceptChildren, visitHookOf, wrapNode_seqAccept_single]
    | columnExprList p q d items =>
      simp [accept, acceptChildren, visitHookOf, acceptList_eq_seqAccept]
    | ratioExpr r => rfl
    | sampleRatioExpr s => rfl
    | tableExpr a b al ex hf => rfl
    | joinTableExpr table se sr hf =>
      cases sr with
      | some s => simp [skipsVisit] at h
      | none =>
        simp [accept, acceptChildren, visitHookOf, wrapNode_seqAccept_single]
    | joinExpr jp l r m c => rfl
    | fromExpr fp ex =>
      simp [accept, acceptChildren, visitHookOf, wrapNode_seqAccept_single]
    | limitExpr lp l o => rfl
    | limitByExpr l b => rfl
    | partitionExpr pp ex id al => rfl
    | checkExpr cp t p => rfl
    | withExpr wp ep ctes =>
      simp [accept, acceptChildren, visitHookOf, acceptList_eq_seqAccept]
    | selectQuery a b w t cols f aj win pre wh gb wt hav ob lb lim st ua ud ex =>
      rfl
  · intro e h
    cases e with
    | joinTableExpr table se sr hf =>
      cases sr with
      | none => simp [skipsVisit] at h
      | some s =>
        rcases hs : seqAccept [accept v table, acceptSampleRatio v s] with ⟨tr, res⟩
        simp [accept, acceptChildren, hs]
    | numberLiteral n => simp [skipsVisit] at h
    | stringLiteral s => simp [skipsVisit] at h
    | ident i => simp [skipsVisit] at h
    | tableIdentifier t => simp [skipsVisit] at h
    | binaryExpr l op r g n => simp [skipsVisit] at h
    | ternaryExpr c t f => simp [skipsVisit] at h
    | unaryExpr p k ex => simp [skipsVisit] at h
    | columnExprList p q d items => simp [skipsVisit] at h
    | ratioExpr r => simp [skipsVisit] at h
    | sampleRatioExpr s => simp [skipsVisit] at h
    | tableExpr a b al ex hf => simp [skipsVisit] at h
    | joinExpr jp l r m c => simp [skipsVisit] at h
    | fromExpr fp ex => simp [skipsVisit] at h
    | limitExpr lp l o => simp [skipsVisit] at h
    | limitByExpr l b => simp [skipsVisit] at h
    | partitionExpr pp ex id al => simp [skipsVisit] at h
    | checkExpr cp t p => simp [skipsVisit] at h
    | withExpr wp ep ctes => simp [skipsVisit] at h
    | selectQuery a b w t cols f aj win pre wh gb wt hav ob lb lim st ua ud ex =>
      simp [skipsVisit] at h
  · intro pre tr err post
    induction pre with
    | nil =>
      intro _
      simp [seqAccept]
    | cons p rest ih =>
      intro h
      rcases p with ⟨trp, resp⟩
      have hp : resp = none := by simpa using h _ (List.mem_cons_self _ _)
      subst hp
      have hrest : ∀ q ∈ rest, q.2 = none := fun q hq => h q (List.mem_cons_of_mem _ hq)
      simp [seqAccept, ih hrest]

/-- C4 witness: at the concrete binary node `1 + y` with the visitor
that fails (value 7) on number literals, conjunct 1 of the propagation
theorem applies (its `skipsVisit` hypothesis discharged by `rfl`),
conjunct 3 applies to the failing first child (its all-preceding-succeed
hypothesis discharged over the empty prefix), and the node's result is
the first child's failure, unchanged, with no `visit` event for the
node. -/
theorem c4_accept_error_propagation_witness :
    skipsVisit c4Binary = false ∧
    accept failOnNumberVisitor c4Binary =
      wrapNode c4Binary (visitHookOf failOnNumberVisitor c4Binary)
        (seqAccept (acceptChildren failOnNumberVisitor c4Binary)) ∧
    seqAccept (([] : List (List Event × Option Nat)) ++
        ((accept failOnNumberVisitor c4Number).1, some 7) ::
          [accept failOnNumberVisitor c4RightChild]) =
      ((([] : List (List Event × Option Nat)).map Prod.fst).flatten ++
        (accept failOnNumberVisitor c4Number).1, some 7) ∧
    accept failOnNumberVisitor c4Binary =
      ([.enter c4Binary, .enter c4Number, .visit c4Number, .leave c4Number,
        .leave c4Binary], some 7) :=
  ⟨rfl,
   (c4_accept_error_propagation failOnNumberVisitor).1 c4Binary rfl,
   (c4_accept_error_propagation failOnNumberVisitor).2.2.1 []
     (accept failOnNumberVisitor c4Number).1 7
     [accept failOnNumberVisitor c4RightChild] (by simp),
   rfl⟩

/-- C5: the AST of `SELECT 1` — one `SelectQuery` whose select list is
the single column `NumberLiteral{Literal:"1"}` with all other clauses
absent — pretty-prints at level 0 to exactly a newline, `SELECT` with a
trailing space, then the column on a new line indented one level. -/
theorem c5_select_one_pretty_print : stringE c5Select 0 = "\nSELECT \n  1" := rfl

/-- C6: `Ident.String` re-emits the identifier with the quote style it
was parsed with — back-ticks when `QuoteType` is `BackTicks`, double
quotes when it is `DoubleQuote`, bare otherwise — with the name text
unchanged, at every level. -/
theorem c6_ident_quote_preservation (i : Ident) (level : Nat) :
    (i.quoteType = BackTicks → stringE (.ident i) level = "`" ++ i.name ++ "`") ∧
    (i.quoteType = DoubleQuote → stringE (.ident i) level = "\"" ++ i.name ++ "\"") ∧
    (i.quoteType ≠ BackTicks → i.quoteType ≠ DoubleQuote →
      stringE (.ident i) level = i.name) := by
  refine ⟨fun h => ?_, fun h => ?_, fun h1 h2 => ?_⟩
  · simp [stringE_ident_eq, identString, h]
  · simp [stringE_ident_eq, identString, h, BackTicks, DoubleQuote]
  · simp [stringE_ident_eq, identString, h1, h2]

/-- C6 witness: a back-tick-quoted identifier re-emits in back-ticks. -/
theorem c6_ident_quote_preservation_witness :
    (⟨"db", BackTicks, 0, 4⟩ : Ident).quoteType = BackTicks ∧
    stringE (.ident ⟨"db", BackTicks, 0, 4⟩) 0 = "`" ++ "db" ++ "`" :=
  ⟨rfl, (c6_ident_quote_preservation ⟨"db", BackTicks, 0, 4⟩ 0).1 rfl⟩

/-- C7: `NumberLiteral.String` returns exactly the stored original
lexeme at every level, so the literal's base (decimal, hex `0x…`, octal,
float) is preserved on emission. -/
theorem c7_number_literal_lexeme_preserved (n : NumberLiteral) (level : Nat) :
    stringE (.numberLiteral n) level = n.literal := rfl

/-- C8: the claim asserts `parse(pretty(parse(S))) ≡ parse(S)` for every
accepted `S`.  For `SELECT 1 LIMIT 2 BY a` the pretty-printer emits the
limit-by clause as `LIMIT LIMIT 2 OFFSET LIMIT 2 BY a` (the
`LimitByExpr` double emission), text in which the keyword `LIMIT`
appears where the grammar requires a limit expression — so the printed
output cannot re-parse to the original AST and the round-trip fails. -/
theorem c8_roundtrip_breaking_output :
    stringE c8Select 0 = "\nSELECT \n  1\nLIMIT LIMIT 2 OFFSET LIMIT 2 BY a" := rfl

/-- C9: `UnaryExpr.String` returns `"-"` concatenated with the operand
rendered at `level+1`, for every stored operator kind — a `UnaryExpr`
built for unary `+` prints with a `-` sign. -/
theorem c9_unary_string_always_minus (unaryPos : Pos) (kind : TokenKind)
    (e : Expr) (level : Nat) :
    stringE (.unaryExpr unaryPos kind e) level = "-" ++ stringE e (level + 1) := rfl

/-- C10: `CheckExpr.End` dereferences `c.Partition` unconditionally, so
it is defined only when the partition clause is present (`none` models
the nil-pointer panic), and with a present partition it is that
clause's end; `CheckExpr.String` by contrast guards the nil case and is
total, emitting `CHECK TABLE <table>` followed by `NewLine(level)` and
nothing further when the partition is absent. -/
theorem c10_checkExpr_end_requires_partition :
    (∀ checkPos t, endE (.checkExpr checkPos t none) = none) ∧
    (∀ checkPos t p, endE (.checkExpr checkPos t (some p)) = endE p) ∧
    (∀ checkPos t level, stringE (.checkExpr checkPos t none) level
      = "CHECK TABLE " ++ tableIdentifierString t ++ NewLine level) := by
  refine ⟨fun _ _ => rfl, fun _ _ _ => rfl, fun checkPos t level => ?_⟩
  rw [stringE_checkExpr_none_eq, String.append_empty]

end ClickHouseAst
